import Mathlib

/-!
Verification of the soft red-list watermarking core (`watermark.py`).

Shallow embedding conventions:
* Python byte strings are `List Nat` (each entry a byte value); `str.encode()`
  is `strBytes`, UTF-8 encoding via `String.toUTF8`.
* Python floats are modelled exactly: `ℚ` for the discrete/comparison layer
  (probabilities, gamma, delta, the PRF output `u`), `ℝ` where the code uses
  `math.exp` / `math.sqrt`.
* The global dict `MODEL_KEYS` becomes an explicit `KeyStore` value threaded
  through the operations; `register_model` returns the updated store.
* Python exceptions become the `Err` type of an `Except`: `keyError` models
  `KeyError`, `valueError` models `ValueError`, `zeroDivisionError` models
  `ZeroDivisionError` (which in Python is a subclass of `ArithmeticError`).
* `random.choices(tokens, weights, k=1)[0]` is modelled by `samplePickFrom`,
  parametrised by the `random.random()` draw `x ∈ [0,1)`: cumulative-weight
  inverse sampling with the chosen index capped at `n - 1`, and the
  `total <= 0` rejection CPython performs.
-/

namespace Watermark

/-- Truncation to a 32-bit word, the implicit modulus of all SHA-256 word
arithmetic. -/
def w32 (n : Nat) : Nat := n % 4294967296

/-- Right rotation of a 32-bit word by `n` bits. -/
def rotr (n x : Nat) : Nat := w32 ((x >>> n) ||| (x <<< (32 - n)))

/-- Bitwise complement within 32 bits. -/
def not32 (x : Nat) : Nat := x ^^^ 4294967295

/-- SHA-256 `Ch` function. -/
def ch (e f g : Nat) : Nat := (e &&& f) ^^^ (not32 e &&& g)

/-- SHA-256 `Maj` function. -/
def maj (a b c : Nat) : Nat := (a &&& b) ^^^ (a &&& c) ^^^ (b &&& c)

/-- SHA-256 big Sigma-0. -/
def capSigma0 (x : Nat) : Nat := rotr 2 x ^^^ rotr 13 x ^^^ rotr 22 x

/-- SHA-256 big Sigma-1. -/
def capSigma1 (x : Nat) : Nat := rotr 6 x ^^^ rotr 11 x ^^^ rotr 25 x

/-- SHA-256 small sigma-0. -/
def smallSigma0 (x : Nat) : Nat := rotr 7 x ^^^ rotr 18 x ^^^ (x >>> 3)

/-- SHA-256 small sigma-1. -/
def smallSigma1 (x : Nat) : Nat := rotr 17 x ^^^ rotr 19 x ^^^ (x >>> 10)

/-- The 64 SHA-256 round constants (FIPS 180-4, the fractional parts of the
cube roots of the first 64 primes), written in decimal. -/
def shaK : List Nat :=
  [1116352408, 1899447441, 3049323471, 3921009573, 961987163,
   1508970993, 2453635748, 2870763221, 3624381080, 310598401,
   607225278, 1426881987, 1925078388, 2162078206, 2614888103,
   3248222580, 3835390401, 4022224774, 264347078, 604807628,
   770255983, 1249150122, 1555081692, 1996064986, 2554220882,
   2821834349, 2952996808, 3210313671, 3336571891, 3584528711,
   113926993, 338241895, 666307205, 773529912, 1294757372,
   1396182291, 1695183700, 1986661051, 2177026350, 2456956037,
   2730485921, 2820302411, 3259730800, 3345764771, 3516065817,
   3600352804, 4094571909, 275423344, 430227734, 506948616,
   659060556, 883997877, 958139571, 1322822218, 1537002063,
   1747873779, 1955562222, 2024104815, 2227730452, 2361852424,
   2428436474, 2756734187, 3204031479, 3329325298]

/-- The initial SHA-256 hash state (FIPS 180-4, the fractional parts of the
square roots of the first 8 primes), written in decimal. -/
def shaInit : List Nat :=
  [1779033703, 3144134277, 1013904242, 2773480762,
   1359893119, 2600822924, 528734635, 1541459225]

/-- Big-endian bytes of `n` in exactly `k` bytes. -/
def natToBytesBE (k : Nat) (n : Nat) : List Nat :=
  match k with
  | 0 => []
  | k + 1 => natToBytesBE k (n / 256) ++ [n % 256]

/-- Big-endian unsigned integer read from a byte list, the semantics of
Python's `int.from_bytes(bs, "big")`. -/
def bytesToNatBE (bs : List Nat) : Nat := bs.foldl (fun acc b => acc * 256 + b) 0

/-- SHA-256 padding: append `0x80`, zero bytes to 56 mod 64, then the bit
length as 8 big-endian bytes. -/
def shaPad (msg : List Nat) : List Nat :=
  msg ++ [0x80] ++ List.replicate ((119 - msg.length % 64) % 64) 0
      ++ natToBytesBE 8 (8 * msg.length)

/-- Split a byte list into 64-byte blocks. -/
def toBlocks (l : List Nat) : List (List Nat) :=
  if l = [] then [] else l.take 64 :: toBlocks (l.drop 64)
termination_by l.length
decreasing_by
  simp only [List.length_drop]
  rename_i h
  have : 0 < l.length := List.length_pos.mpr h
  omega

/-- Group bytes into big-endian 32-bit words. -/
def bytesToWords : List Nat → List Nat
  | b0 :: b1 :: b2 :: b3 :: rest => (((b0 * 256 + b1) * 256 + b2) * 256 + b3) :: bytesToWords rest
  | _ => []

/-- Extend a 16-word block schedule by `n` further words. -/
def extendSchedule (ws : List Nat) : Nat → List Nat
  | 0 => ws
  | n + 1 =>
    let v := extendSchedule ws n
    v ++ [w32 (smallSigma1 (v.getD (v.length - 2) 0) + v.getD (v.length - 7) 0
        + smallSigma0 (v.getD (v.length - 15) 0) + v.getD (v.length - 16) 0)]

/-- One SHA-256 compression round for each `(word, constant)` pair. -/
def compressRounds (st : List Nat) (pairs : List (Nat × Nat)) : List Nat :=
  pairs.foldl (fun s wk =>
    match s with
    | [a, b, c, d, e, f, g, h] =>
      let t1 := w32 (h + capSigma1 e + ch e f g + wk.2 + wk.1)
      let t2 := w32 (capSigma0 a + maj a b c)
      [w32 (t1 + t2), a, b, c, w32 (d + t1), e, f, g]
    | s => s) st

/-- Process one padded 64-byte block. -/
def processBlock (h : List Nat) (block : List Nat) : List Nat :=
  let ws := extendSchedule (bytesToWords block) 48
  let st := compressRounds h (ws.zip shaK)
  (h.zip st).map (fun p => w32 (p.1 + p.2))

/-- SHA-256 of a byte string, as a 32-byte list; the semantics of Python's
`hashlib.sha256(msg).digest()`. -/
def sha256 (msg : List Nat) : List Nat :=
  ((toBlocks (shaPad msg)).foldl processBlock shaInit).map (natToBytesBE 4) |>.flatten

/-- HMAC-SHA256 (RFC 2104, block size 64), the semantics of Python's
`hmac.new(key, msg, hashlib.sha256).digest()`. -/
def hmacSha256 (key msg : List Nat) : List Nat :=
  let k0 := if 64 < key.length then sha256 key else key
  let kp := k0 ++ List.replicate (64 - k0.length) 0
  sha256 ((kp.map (· ^^^ 0x5c)) ++ sha256 ((kp.map (· ^^^ 0x36)) ++ msg))

/-- UTF-8 bytes of a string, the semantics of Python's `str.encode()`. -/
def strBytes (s : String) : List Nat := s.toUTF8.toList.map (·.toNat)

/-- The exceptions the watermark core can raise, named after the Python
exception classes. In Python's hierarchy `ZeroDivisionError` is a subclass of
`ArithmeticError`; `KeyError` and `ValueError` are not. -/
inductive Err
  | keyError
  | valueError
  | zeroDivisionError
deriving DecidableEq

/-- Whether a raised exception is (an instance of) Python's
`ArithmeticError`. -/
def Err.isArithmeticError : Err → Bool
  | .zeroDivisionError => true
  | _ => false

/-- One registered model's entry in `MODEL_KEYS`: vocabulary, encoded secret,
green fraction gamma, and hardness delta. -/
structure WatermarkConfig where
  vocab : List String
  secret : List Nat
  gamma : ℚ
  delta : ℚ
deriving DecidableEq

/-- The global registry `MODEL_KEYS`, modelled as an association list; lookup
takes the most recent binding, so registration is an upsert. -/
def KeyStore := List (String × WatermarkConfig)

/-- Dict lookup `MODEL_KEYS[model_id]`, `none` modelling a `KeyError`. -/
def lookupModel (store : KeyStore) (modelId : String) : Option WatermarkConfig :=
  List.lookup modelId store

/-- `register_model`: installs (or overwrites) the config for `model_id`,
encoding the secret. The source performs no validation here. -/
def registerModel (store : KeyStore) (modelId : String) (vocab : List String)
    (secret : String) (gamma delta : ℚ) : KeyStore :=
  (modelId, ⟨vocab, strBytes secret, gamma, delta⟩) :: store

/-- `_is_green`: HMAC-SHA256 of `prev_token + token` keyed by `secret`, first
8 digest bytes as a big-endian integer over `2^64`, compared with `gamma`. -/
def isGreen (secret : List Nat) (prevToken token : String) (gamma : ℚ) : Bool :=
  let data := strBytes (prevToken ++ token)
  let digest := hmacSha256 secret data
  let u : ℚ := (bytesToNatBE (digest.take 8) : ℚ) / 2 ^ 64
  decide (u < gamma)

/-- The counting loop of `detect_watermark`, with `prev` the token before the
current one (`prev` starts at the empty-string sentinel). -/
def countGreenAux (secret : List Nat) (gamma : ℚ) (prev : String) : List String → Nat
  | [] => 0
  | t :: ts => (if isGreen secret prev t gamma then 1 else 0) + countGreenAux secret gamma t ts

/-- Number of green positions in a token sequence, first position keyed by the
empty-string sentinel. -/
def countGreen (secret : List Nat) (gamma : ℚ) (tokens : List String) : Nat :=
  countGreenAux secret gamma "" tokens

/-- `detect_watermark`: z-score of green density. Mirrors the source's order:
dict lookup first (`KeyError`), the `T == 0` early return of `0.0`, then
`math.sqrt` (a `ValueError` on a negative radicand) and the division (a
`ZeroDivisionError` when the radicand is zero). -/
noncomputable def detectWatermark (store : KeyStore) (modelId : String)
    (tokens : List String) : Except Err ℝ :=
  match lookupModel store modelId with
  | none => .error .keyError
  | some cfg =>
    let count := countGreen cfg.secret cfg.gamma tokens
    let T := tokens.length
    if T = 0 then .ok 0
    else
      let v : ℚ := T * cfg.gamma * (1 - cfg.gamma)
      if v < 0 then .error .valueError
      else if v = 0 then .error .zeroDivisionError
      else .ok (((count : ℝ) - (cfg.gamma : ℝ) * T) / Real.sqrt (v : ℝ))

/-- Total probability mass of an input distribution. -/
def totalMass (dist : List (String × ℚ)) : ℚ := (dist.map Prod.snd).sum

/-- The `boosted` weights of `select_watermarked_token`: green tokens'
probabilities scaled by `alpha = exp(delta)`, the rest unchanged. -/
noncomputable def boostedWeights (cfg : WatermarkConfig) (prevToken : String)
    (dist : List (String × ℚ)) : List (String × ℝ) :=
  dist.map (fun tp =>
    (tp.1, if isGreen cfg.secret prevToken tp.1 cfg.gamma
           then (tp.2 : ℝ) * Real.exp (cfg.delta : ℝ) else (tp.2 : ℝ)))

/-- The accumulated `total` of a weight list. -/
def weightSum (pairs : List (String × ℝ)) : ℝ := (pairs.map Prod.snd).sum

/-- The in-place renormalisation `boosted[tok] /= total`. -/
noncomputable def normalizedWeights (cfg : WatermarkConfig) (prevToken : String)
    (dist : List (String × ℚ)) : List (String × ℝ) :=
  let b := boostedWeights cfg prevToken dist
  b.map (fun tw => (tw.1, tw.2 / weightSum b))

/-- Index selected by cumulative-weight inverse sampling at position `x`,
capped at the last index as CPython's `bisect(..., hi=n-1)` caps it. -/
noncomputable def pickIdx : List ℝ → ℝ → Nat
  | [], _ => 0
  | [_], _ => 0
  | w :: v :: rest, x => if x < w then 0 else pickIdx (v :: rest) (x - w) + 1

/-- `random.choices(tokens, weights, k=1)[0]` given the uniform draw
`x ∈ [0,1)`: the token whose cumulative weight interval contains
`x * total`. -/
noncomputable def samplePickFrom (pairs : List (String × ℝ)) (x : ℝ) : String :=
  (pairs.map Prod.fst).getD (pickIdx (pairs.map Prod.snd) (x * weightSum pairs)) ""

/-- `select_watermarked_token`, parametrised by the uniform draw `x` of the
sampler. Error order mirrors the source: dict lookup (`KeyError`); an empty
distribution reaches `zip(*boosted.items())` and fails to unpack
(`ValueError`); a nonempty distribution with zero accumulated `total` fails at
`boosted[tok] /= total` (`ZeroDivisionError`); `random.choices` rejects a
non-positive total of the (renormalised) weights (`ValueError`). -/
noncomputable def selectWatermarkedToken (store : KeyStore) (modelId : String)
    (dist : List (String × ℚ)) (prevToken : String) (x : ℝ) : Except Err String :=
  match lookupModel store modelId with
  | none => .error .keyError
  | some cfg =>
    if dist = [] then .error .valueError
    else if weightSum (boostedWeights cfg prevToken dist) = 0 then .error .zeroDivisionError
    else
      let norm := normalizedWeights cfg prevToken dist
      if weightSum norm ≤ 0 then .error .valueError
      else .ok (samplePickFrom norm x)

/-- Fixture config: the spec's concrete scenario, gamma 1/2 and delta 2. -/
def cfgHalf : WatermarkConfig := ⟨["a", "b"], strBytes "k1", 1/2, 2⟩

/-- Fixture store holding `cfgHalf` under model id `"m"`. -/
def storeHalf : KeyStore := registerModel [] "m" ["a", "b"] "k1" (1/2) 2

/-- Fixture config with delta 0 (the unbiased limit). -/
def cfgZero : WatermarkConfig := ⟨["a", "b"], strBytes "k1", 1/2, 0⟩

/-- Fixture store holding `cfgZero` under model id `"m"`. -/
def storeZero : KeyStore := registerModel [] "m" ["a", "b"] "k1" (1/2) 0

/-- Fixture config with gamma 0 (degenerate detector variance). -/
def cfgDegenerate : WatermarkConfig := ⟨["a", "b"], strBytes "k1", 0, 2⟩

/-- Fixture store holding `cfgDegenerate` under model id `"m"`. -/
def storeDegenerate : KeyStore := registerModel [] "m" ["a", "b"] "k1" 0 2

/-- The counting loop of the detector equals the index-based count: position
`i` is green when the token at `i` is green in the context of the token at
`i - 1`, position `0` in the context of the initial sentinel `p`. -/
theorem countGreenAux_eq_countP (secret : List Nat) (gamma : ℚ) :
    ∀ (l : List String) (p : String),
      countGreenAux secret gamma p l =
        (List.range l.length).countP
          (fun i => isGreen secret (if i = 0 then p else l.getD (i - 1) "") (l.getD i "") gamma) := by
  intro l
  induction l with
  | nil => intro p; rfl
  | cons t ts ih =>
    intro p
    rw [countGreenAux, ih t, List.length_cons, List.range_succ_eq_map, List.countP_cons,
      List.countP_map]
    have hcong : (List.range ts.length).countP
          ((fun i => isGreen secret (if i = 0 then p else (t :: ts).getD (i - 1) "")
            ((t :: ts).getD i "") gamma) ∘ Nat.succ)
        = (List.range ts.length).countP
          (fun i => isGreen secret (if i = 0 then t else ts.getD (i - 1) "")
            (ts.getD i "") gamma) := by
      refine List.countP_congr ?_
      intro i _
      cases i with
      | zero => simp
      | succ j => simp
    rw [hcong]
    simp only [List.getD_cons_zero, if_pos rfl]
    rcases h : isGreen secret p t gamma <;> simp [h, Nat.add_comm]

/-- C1: for every secret, prev_token, token and gamma, `_is_green` returns
true exactly when the first 8 bytes of `HMAC-SHA256(secret, prev_token ++
token)`, read as a big-endian 64-bit integer and divided by `2^64`, lie below
`gamma`. Determinism in the four inputs is immediate: `isGreen` is a pure
function of exactly these arguments. -/
theorem isGreen_hmac_characterization (secret : List Nat) (prevToken token : String)
    (gamma : ℚ) :
    isGreen secret prevToken token gamma = true ↔
      (bytesToNatBE ((hmacSha256 secret (strBytes (prevToken ++ token))).take 8) : ℚ) / 2 ^ 64
        < gamma := by
  simp [isGreen]

/-- C2: detection on a registered model with `0 < gamma < 1` and a nonempty
sequence returns exactly `(count_green - gamma * T) / sqrt(T * gamma * (1 -
gamma))`, where `count_green` counts the positions whose token is green in the
context of its predecessor, the first position keyed by the empty-string
sentinel. -/
theorem detectWatermark_z_formula (store : KeyStore) (modelId : String)
    (cfg : WatermarkConfig) (tokens : List String)
    (hlook : lookupModel store modelId = some cfg)
    (h0 : 0 < cfg.gamma) (h1 : cfg.gamma < 1) (hne : tokens ≠ []) :
    detectWatermark store modelId tokens =
      .ok ((((List.range tokens.length).countP
            (fun i => isGreen cfg.secret (if i = 0 then "" else tokens.getD (i - 1) "")
              (tokens.getD i "") cfg.gamma) : ℝ)
          - (cfg.gamma : ℝ) * tokens.length)
        / Real.sqrt (tokens.length * (cfg.gamma : ℝ) * (1 - (cfg.gamma : ℝ)))) := by
  have hT : tokens.length ≠ 0 := fun h => hne (List.length_eq_zero.mp h)
  have hTpos : (0 : ℚ) < (tokens.length : ℚ) := by
    exact_mod_cast Nat.pos_of_ne_zero hT
  have hv : (0 : ℚ) < (tokens.length : ℚ) * cfg.gamma * (1 - cfg.gamma) :=
    mul_pos (mul_pos hTpos h0) (by linarith)
  simp only [detectWatermark, hlook, if_neg hT, if_neg (not_lt.mpr hv.le), if_neg hv.ne']
  rw [countGreen, countGreenAux_eq_countP]
  congr 1
  push_cast
  ring_nf

/-- Witness for C2 at the spec's concrete scenario: model `"m"`, gamma 1/2,
delta 2, token sequence `["a", "b"]`. -/
theorem detectWatermark_z_formula_witness :
    lookupModel storeHalf "m" = some cfgHalf ∧ (0 : ℚ) < cfgHalf.gamma ∧ cfgHalf.gamma < 1
      ∧ (["a", "b"] : List String) ≠ [] ∧
      detectWatermark storeHalf "m" ["a", "b"] =
        .ok ((((List.range (["a", "b"] : List String).length).countP
              (fun i => isGreen cfgHalf.secret
                (if i = 0 then "" else (["a", "b"] : List String).getD (i - 1) "")
                ((["a", "b"] : List String).getD i "") cfgHalf.gamma) : ℝ)
            - (cfgHalf.gamma : ℝ) * (["a", "b"] : List String).length)
          / Real.sqrt ((["a", "b"] : List String).length * (cfgHalf.gamma : ℝ)
            * (1 - (cfgHalf.gamma : ℝ)))) :=
  ⟨rfl, by norm_num [cfgHalf], by norm_num [cfgHalf], by simp,
    detectWatermark_z_formula storeHalf "m" cfgHalf ["a", "b"] rfl
      (by norm_num [cfgHalf]) (by norm_num [cfgHalf]) (by simp)⟩

/-- Casting every probability of a pair list into the reals turns the
accumulated weight total into the cast of the rational total mass. -/
theorem weightSum_map_cast (l : List (String × ℚ)) :
    weightSum (l.map (fun tp => (tp.1, (tp.2 : ℝ)))) = ((totalMass l : ℚ) : ℝ) := by
  unfold weightSum totalMass
  induction l with
  | nil => simp
  | cons a l ih => simp only [List.map_cons, List.sum_cons, Rat.cast_add, ih]

/-- Dividing every weight of a pair list by a constant divides the
accumulated total by that constant. -/
theorem weightSum_map_div (b : List (String × ℝ)) (c : ℝ) :
    weightSum (b.map (fun tw => (tw.1, tw.2 / c))) = weightSum b / c := by
  unfold weightSum
  induction b with
  | nil => simp
  | cons a l ih => simp only [List.map_cons, List.sum_cons, ih, add_div]

/-- C3: with delta 0 the sampler's normalised weight of each token is that
token's input probability over the distribution's total mass — the boost
factor `exp 0 = 1` drops out, so neither gamma nor the secret can influence
the sampled categorical distribution. -/
theorem selectToken_delta_zero (store : KeyStore) (modelId : String) (cfg : WatermarkConfig)
    (dist : List (String × ℚ)) (prevToken : String)
    (hlook : lookupModel store modelId = some cfg) (hdelta : cfg.delta = 0)
    (hpos : 0 < totalMass dist) :
    normalizedWeights cfg prevToken dist
      = dist.map (fun tp => (tp.1, (tp.2 : ℝ) / (totalMass dist : ℝ))) := by
  have hb : boostedWeights cfg prevToken dist = dist.map (fun tp => (tp.1, (tp.2 : ℝ))) := by
    unfold boostedWeights
    rw [hdelta]
    simp
  have hsum := weightSum_map_cast dist
  show (boostedWeights cfg prevToken dist).map
      (fun tw => (tw.1, tw.2 / weightSum (boostedWeights cfg prevToken dist))) = _
  rw [hb, hsum, List.map_map]
  rfl

/-- Witness for C3: delta 0, distribution `{a: 1/2, b: 1/2}`. -/
theorem selectToken_delta_zero_witness :
    lookupModel storeZero "m" = some cfgZero ∧ cfgZero.delta = 0
      ∧ 0 < totalMass [("a", (1 : ℚ)/2), ("b", (1 : ℚ)/2)]
      ∧ normalizedWeights cfgZero "" [("a", (1 : ℚ)/2), ("b", (1 : ℚ)/2)]
        = ([("a", (1 : ℚ)/2), ("b", (1 : ℚ)/2)]).map
            (fun tp => (tp.1, (tp.2 : ℝ) / (totalMass [("a", (1 : ℚ)/2), ("b", (1 : ℚ)/2)] : ℝ))) :=
  ⟨rfl, rfl, by norm_num [totalMass],
    selectToken_delta_zero storeZero "m" cfgZero [("a", (1 : ℚ)/2), ("b", (1 : ℚ)/2)] "" rfl rfl
      (by norm_num [totalMass])⟩

/-- C4: the sampler's weights are `p * exp(delta)` for green tokens and `p`
otherwise, and after the renormalisation the weights accumulate to exactly 1;
the sampled token is drawn from the renormalised list. -/
theorem selectToken_boost_and_normalize (store : KeyStore) (modelId : String)
    (cfg : WatermarkConfig) (dist : List (String × ℚ)) (prevToken : String) (x : ℝ)
    (hlook : lookupModel store modelId = some cfg) (hne : dist ≠ [])
    (htot : weightSum (boostedWeights cfg prevToken dist) ≠ 0) :
    boostedWeights cfg prevToken dist
        = dist.map (fun tp => (tp.1,
            if isGreen cfg.secret prevToken tp.1 cfg.gamma
            then (tp.2 : ℝ) * Real.exp (cfg.delta : ℝ) else (tp.2 : ℝ)))
      ∧ weightSum (normalizedWeights cfg prevToken dist) = 1
      ∧ selectWatermarkedToken store modelId dist prevToken x
          = .ok (samplePickFrom (normalizedWeights cfg prevToken dist) x) := by
  have hw : weightSum (normalizedWeights cfg prevToken dist) = 1 := by
    show weightSum ((boostedWeights cfg prevToken dist).map
      (fun tw => (tw.1, tw.2 / weightSum (boostedWeights cfg prevToken dist)))) = 1
    rw [weightSum_map_div, div_self htot]
  refine ⟨rfl, hw, ?_⟩
  simp only [selectWatermarkedToken, hlook, if_neg hne, if_neg htot]
  rw [if_neg]
  rw [hw]
  norm_num

/-- Witness for C4: delta 0, distribution `{a: 1/2, b: 1/2}`, draw 0. -/
theorem selectToken_boost_and_normalize_witness :
    lookupModel storeZero "m" = some cfgZero
      ∧ ([("a", (1 : ℚ)/2), ("b", (1 : ℚ)/2)] : List (String × ℚ)) ≠ []
      ∧ weightSum (boostedWeights cfgZero "" [("a", (1 : ℚ)/2), ("b", (1 : ℚ)/2)]) ≠ 0
      ∧ weightSum (normalizedWeights cfgZero "" [("a", (1 : ℚ)/2), ("b", (1 : ℚ)/2)]) = 1
      ∧ selectWatermarkedToken storeZero "m" [("a", (1 : ℚ)/2), ("b", (1 : ℚ)/2)] "" 0
          = .ok (samplePickFrom
              (normalizedWeights cfgZero "" [("a", (1 : ℚ)/2), ("b", (1 : ℚ)/2)]) 0) := by
  have haux : weightSum (boostedWeights cfgZero "" [("a", (1 : ℚ)/2), ("b", (1 : ℚ)/2)]) = 1 := by
    simp [boostedWeights, cfgZero, weightSum]
    norm_num
  have htot : weightSum (boostedWeights cfgZero "" [("a", (1 : ℚ)/2), ("b", (1 : ℚ)/2)]) ≠ 0 := by
    rw [haux]; norm_num
  have h := selectToken_boost_and_normalize storeZero "m" cfgZero
    [("a", (1 : ℚ)/2), ("b", (1 : ℚ)/2)] "" 0 rfl (by simp) htot
  exact ⟨rfl, by simp, htot, h.2.1, h.2.2⟩

/-- C5 counterexample: a distribution whose total probability mass is
negative (hence ≤ 0) is not rejected — the sampler returns a token. -/
theorem selectToken_negative_mass_counterexample :
    totalMass [("a", (-1 : ℚ))] ≤ 0
      ∧ selectWatermarkedToken storeZero "m" [("a", (-1 : ℚ))] "" 0 = .ok "a" := by
  have hb : boostedWeights cfgZero "" [("a", (-1 : ℚ))] = [("a", (-1 : ℝ))] := by
    simp [boostedWeights, cfgZero]
  have hn : normalizedWeights cfgZero "" [("a", (-1 : ℚ))] = [("a", (1 : ℝ))] := by
    unfold normalizedWeights
    rw [hb]
    norm_num [weightSum]
  constructor
  · norm_num [totalMass]
  · simp only [selectWatermarkedToken, show lookupModel storeZero "m" = some cfgZero from rfl]
    rw [if_neg (by simp : ¬([("a", (-1 : ℚ))] : List (String × ℚ)) = [])]
    rw [if_neg (by rw [hb]; norm_num [weightSum])]
    rw [hn]
    rw [if_neg (by norm_num [weightSum])]
    simp [samplePickFrom, pickIdx]

/-- C5 amended: an empty distribution fails with `ValueError` (the unpacking
of the empty weight map), and a nonempty distribution whose accumulated
boosted total is exactly 0 fails with `ZeroDivisionError`; neither failure is
a ValidationError, and a strictly negative total mass need not fail at all. -/
theorem selectToken_empty_or_zero_total (store : KeyStore) (modelId : String)
    (cfg : WatermarkConfig) (dist : List (String × ℚ)) (prevToken : String) (x : ℝ)
    (hlook : lookupModel store modelId = some cfg) :
    selectWatermarkedToken store modelId [] prevToken x = .error .valueError
      ∧ (dist ≠ [] → weightSum (boostedWeights cfg prevToken dist) = 0 →
          selectWatermarkedToken store modelId dist prevToken x = .error .zeroDivisionError) := by
  constructor
  · simp [selectWatermarkedToken, hlook]
  · intro hne htot
    simp only [selectWatermarkedToken, hlook, if_neg hne, if_pos htot]

/-- Witness for C5 amended: empty distribution, and the zero-total
distribution `{a: 1, b: -1}` under delta 0. -/
theorem selectToken_empty_or_zero_total_witness :
    lookupModel storeZero "m" = some cfgZero
      ∧ selectWatermarkedToken storeZero "m" [] "" 0 = .error .valueError
      ∧ selectWatermarkedToken storeZero "m" [("a", (1 : ℚ)), ("b", (-1 : ℚ))] "" 0
          = .error .zeroDivisionError := by
  have htot : weightSum (boostedWeights cfgZero "" [("a", (1 : ℚ)), ("b", (-1 : ℚ))]) = 0 := by
    simp [boostedWeights, cfgZero, weightSum]
  have h := selectToken_empty_or_zero_total storeZero "m" cfgZero
    [("a", (1 : ℚ)), ("b", (-1 : ℚ))] "" 0 rfl
  exact ⟨rfl, h.1, h.2 (by simp) htot⟩

/-- C6 counterexample: registering with gamma 3/2 (outside [0,1]) does not
fail — the config is installed in the store. -/
theorem registerModel_invalid_gamma_counterexample :
    (1 : ℚ) < 3/2
      ∧ lookupModel (registerModel [] "m" ["a"] "k" (3/2) 2) "m"
          = some ⟨["a"], strBytes "k", 3/2, 2⟩ := by
  constructor
  · norm_num
  · simp [lookupModel, registerModel, List.lookup]

/-- C6 amended: `register_model` performs no validation of gamma, delta or
the secret; every call succeeds and installs (or overwrites) the config for
the model id. Range checks for gamma and delta exist only in the HTTP request
model, outside this core, and an empty secret is never rejected anywhere. -/
theorem registerModel_always_installs (store : KeyStore) (modelId : String)
    (vocab : List String) (secret : String) (gamma delta : ℚ) :
    lookupModel (registerModel store modelId vocab secret gamma delta) modelId
      = some ⟨vocab, strBytes secret, gamma, delta⟩ := by
  simp [lookupModel, registerModel, List.lookup]

/-- C7: stored gamma exactly 0 or 1 with a nonempty sequence makes detection
raise `ZeroDivisionError` — in Python a subclass of `ArithmeticError` — so no
numeric z-score is returned. -/
theorem detect_degenerate_gamma_arithmetic_error (store : KeyStore) (modelId : String)
    (cfg : WatermarkConfig) (tokens : List String)
    (hlook : lookupModel store modelId = some cfg)
    (hg : cfg.gamma = 0 ∨ cfg.gamma = 1) (hne : tokens ≠ []) :
    detectWatermark store modelId tokens = .error .zeroDivisionError
      ∧ Err.zeroDivisionError.isArithmeticError = true := by
  have hT : tokens.length ≠ 0 := fun h => hne (List.length_eq_zero.mp h)
  have hv : (tokens.length : ℚ) * cfg.gamma * (1 - cfg.gamma) = 0 := by
    rcases hg with h | h <;> rw [h] <;> ring
  refine ⟨?_, rfl⟩
  simp only [detectWatermark, hlook, if_neg hT, hv]
  simp

/-- Witness for C7: gamma 0, token sequence `["a"]`. -/
theorem detect_degenerate_gamma_witness :
    lookupModel storeDegenerate "m" = some cfgDegenerate
      ∧ (cfgDegenerate.gamma = 0 ∨ cfgDegenerate.gamma = 1)
      ∧ (["a"] : List String) ≠ []
      ∧ detectWatermark storeDegenerate "m" ["a"] = .error .zeroDivisionError :=
  ⟨rfl, Or.inl rfl, by simp,
    (detect_degenerate_gamma_arithmetic_error storeDegenerate "m" cfgDegenerate ["a"]
      rfl (Or.inl rfl) (by simp)).1⟩

/-- C8: a model id absent from the store makes both the sampler and the
detector fail immediately with `KeyError` (the realisation of the spec's
NotFoundError); being pure functions of their inputs, they have no other
effect. -/
theorem unregistered_model_key_error (store : KeyStore) (modelId : String)
    (dist : List (String × ℚ)) (prevToken : String) (x : ℝ) (tokens : List String)
    (h : lookupModel store modelId = none) :
    selectWatermarkedToken store modelId dist prevToken x = .error .keyError
      ∧ detectWatermark store modelId tokens = .error .keyError := by
  constructor
  · simp [selectWatermarkedToken, h]
  · simp [detectWatermark, h]

/-- Witness for C8: the empty store holds no model `"m"`. -/
theorem unregistered_model_key_error_witness :
    lookupModel ([] : KeyStore) "m" = none
      ∧ selectWatermarkedToken ([] : KeyStore) "m" [("a", (1 : ℚ))] "" 0 = .error .keyError
      ∧ detectWatermark ([] : KeyStore) "m" ["a"] = .error .keyError := by
  have h := unregistered_model_key_error ([] : KeyStore) "m" [("a", (1 : ℚ))] "" 0 ["a"] rfl
  exact ⟨rfl, h.1, h.2⟩

/-- C9: on a registered model, detection of the empty sequence returns exactly
0.0, whatever the stored gamma, delta and secret. -/
theorem detect_empty_sequence_zero (store : KeyStore) (modelId : String)
    (cfg : WatermarkConfig) (hlook : lookupModel store modelId = some cfg) :
    detectWatermark store modelId [] = .ok 0 := by
  simp [detectWatermark, hlook]

/-- Witness for C9 on the fixture store. -/
theorem detect_empty_sequence_zero_witness :
    lookupModel storeHalf "m" = some cfgHalf ∧ detectWatermark storeHalf "m" [] = .ok 0 :=
  ⟨rfl, detect_empty_sequence_zero storeHalf "m" cfgHalf rfl⟩

/-- The index picked by the cumulative sampler is always in range on a
nonempty weight list. -/
theorem pickIdx_lt_length (ws : List ℝ) (x : ℝ) (h : ws ≠ []) : pickIdx ws x < ws.length := by
  induction ws generalizing x with
  | nil => exact absurd rfl h
  | cons w rest ih =>
    cases rest with
    | nil => simp [pickIdx]
    | cons v rest2 =>
      rw [pickIdx]
      split
      · simp
      · have hlt := ih (x - w) (by simp)
        simpa using Nat.succ_lt_succ hlt

/-- Mapping a first-component-preserving function over a pair list preserves
the list of keys. -/
theorem map_fst_keep (l : List (String × ℝ)) (f : String × ℝ → ℝ) :
    (l.map (fun p => (p.1, f p))).map Prod.fst = l.map Prod.fst := by
  rw [List.map_map]
  rfl

/-- The keys of the boosted weight list are the keys of the distribution. -/
theorem boostedWeights_fst (cfg : WatermarkConfig) (prevToken : String)
    (dist : List (String × ℚ)) :
    (boostedWeights cfg prevToken dist).map Prod.fst = dist.map Prod.fst := by
  unfold boostedWeights
  rw [List.map_map]
  rfl

/-- C10: with a registered model, a nonempty distribution of non-negative
probabilities and strictly positive total mass, the sampler always succeeds
and returns one of the distribution's tokens — no error branch is
reachable. -/
theorem selectToken_total_pos_succeeds (store : KeyStore) (modelId : String)
    (cfg : WatermarkConfig) (dist : List (String × ℚ)) (prevToken : String) (x : ℝ)
    (hlook : lookupModel store modelId = some cfg) (hne : dist ≠ [])
    (hnn : ∀ tp ∈ dist, 0 ≤ tp.2) (hpos : 0 < totalMass dist) :
    ∃ t, selectWatermarkedToken store modelId dist prevToken x = .ok t
      ∧ t ∈ dist.map Prod.fst := by
  have hexp : (0 : ℝ) < Real.exp (cfg.delta : ℝ) := Real.exp_pos _
  -- every boosted weight is non-negative
  have hb_nn : ∀ w ∈ (boostedWeights cfg prevToken dist).map Prod.snd, 0 ≤ w := by
    intro w hw
    unfold boostedWeights at hw
    rw [List.map_map] at hw
    obtain ⟨tp, htp, hweq⟩ := List.mem_map.mp hw
    have hp : (0 : ℝ) ≤ (tp.2 : ℝ) := by exact_mod_cast hnn tp htp
    rw [← hweq]
    by_cases hg : isGreen cfg.secret prevToken tp.1 cfg.gamma
    · simpa [hg] using mul_nonneg hp hexp.le
    · simpa [hg] using hp
  -- some probability is strictly positive
  have hex : ∃ tp ∈ dist, 0 < tp.2 := by
    by_contra hc
    push_neg at hc
    have hle : totalMass dist ≤ 0 := by
      have h1 : (dist.map Prod.snd).sum ≤ (dist.map (fun _ => (0 : ℚ))).sum :=
        List.sum_le_sum (fun tp htp => hc tp htp)
      simpa [totalMass] using h1
    linarith
  obtain ⟨tp, htp, htp_pos⟩ := hex
  -- the matching boosted weight is strictly positive
  have hw_pos : (0 : ℝ) <
      (if isGreen cfg.secret prevToken tp.1 cfg.gamma
       then (tp.2 : ℝ) * Real.exp (cfg.delta : ℝ) else (tp.2 : ℝ)) := by
    have hp : (0 : ℝ) < (tp.2 : ℝ) := by exact_mod_cast htp_pos
    by_cases hg : isGreen cfg.secret prevToken tp.1 cfg.gamma
    · simpa [hg] using mul_pos hp hexp
    · simpa [hg] using hp
  have hw_mem :
      (if isGreen cfg.secret prevToken tp.1 cfg.gamma
       then (tp.2 : ℝ) * Real.exp (cfg.delta : ℝ) else (tp.2 : ℝ))
        ∈ (boostedWeights cfg prevToken dist).map Prod.snd := by
    unfold boostedWeights
    rw [List.map_map]
    exact List.mem_map.mpr ⟨tp, htp, rfl⟩
  -- hence the accumulated total is strictly positive
  have htot_pos : 0 < weightSum (boostedWeights cfg prevToken dist) := by
    have := List.single_le_sum hb_nn _ hw_mem
    unfold weightSum
    linarith
  have htot : weightSum (boostedWeights cfg prevToken dist) ≠ 0 := ne_of_gt htot_pos
  have hw1 : weightSum (normalizedWeights cfg prevToken dist) = 1 := by
    show weightSum ((boostedWeights cfg prevToken dist).map
      (fun tw => (tw.1, tw.2 / weightSum (boostedWeights cfg prevToken dist)))) = 1
    rw [weightSum_map_div, div_self htot]
  have hkeys : (normalizedWeights cfg prevToken dist).map Prod.fst = dist.map Prod.fst := by
    show ((boostedWeights cfg prevToken dist).map
      (fun tw => (tw.1, tw.2 / weightSum (boostedWeights cfg prevToken dist)))).map Prod.fst
        = dist.map Prod.fst
    rw [map_fst_keep, boostedWeights_fst]
  have hlen : (normalizedWeights cfg prevToken dist).length = dist.length := by
    have := congrArg List.length hkeys
    simpa using this
  have hnorm_ne : normalizedWeights cfg prevToken dist ≠ [] := by
    intro hempty
    rw [hempty] at hlen
    exact hne (List.length_eq_zero.mp hlen.symm)
  refine ⟨samplePickFrom (normalizedWeights cfg prevToken dist) x, ?_, ?_⟩
  · simp only [selectWatermarkedToken, hlook, if_neg hne, if_neg htot]
    rw [if_neg]
    rw [hw1]
    norm_num
  · unfold samplePickFrom
    rw [hkeys]
    have hidx : pickIdx ((normalizedWeights cfg prevToken dist).map Prod.snd)
        (x * weightSum (normalizedWeights cfg prevToken dist))
          < (dist.map Prod.fst).length := by
      have h1 : ((normalizedWeights cfg prevToken dist).map Prod.snd) ≠ [] := by
        intro hempty
        exact hnorm_ne (List.map_eq_nil_iff.mp hempty)
      have h2 := pickIdx_lt_length ((normalizedWeights cfg prevToken dist).map Prod.snd)
        (x * weightSum (normalizedWeights cfg prevToken dist)) h1
      simpa [hlen] using h2
    rw [List.getD_eq_getElem _ _ hidx]
    exact List.getElem_mem hidx

/-- Witness for C10: delta 0, the one-token distribution `{a: 1}`, draw 0. -/
theorem selectToken_total_pos_succeeds_witness :
    lookupModel storeZero "m" = some cfgZero
      ∧ ([("a", (1 : ℚ))] : List (String × ℚ)) ≠ []
      ∧ (∀ tp ∈ ([("a", (1 : ℚ))] : List (String × ℚ)), 0 ≤ tp.2)
      ∧ 0 < totalMass [("a", (1 : ℚ))]
      ∧ ∃ t, selectWatermarkedToken storeZero "m" [("a", (1 : ℚ))] "" 0 = .ok t
          ∧ t ∈ ([("a", (1 : ℚ))] : List (String × ℚ)).map Prod.fst :=
  ⟨rfl, by simp, by intro tp htp; simp at htp; simp [htp], by norm_num [totalMass],
    selectToken_total_pos_succeeds storeZero "m" cfgZero [("a", (1 : ℚ))] "" 0 rfl
      (by simp) (by intro tp htp; simp at htp; simp [htp]) (by norm_num [totalMass])⟩

end Watermark
